import Mathlib

/-!
# ccache: the tracked item (`item.go`)

A shallow embedding of `item.go`: the reference-counted, time-bounded handle
of the cache, and the sentinel handle returned on a miss.

Modelling conventions

* Go's `int32` and `int64` are integers of `Int`; every arithmetic operation
  the code performs on them is followed by the two's complement wrap
  (`wrapInt32`, `wrapInt64`), as Go defines signed overflow.
* A method with a pointer receiver that writes a field returns the updated
  record; a method that also returns a value returns a pair.
* The wall clock is explicit: a method that calls `time.Now()` takes the
  instant read by that call as the argument `now`.
* `sync/atomic` operations are modelled by their sequential effect.
-/

namespace ccache

/-! ## Machine integers -/

/-- Two's complement wrap of an integer into the range of Go's `int32`. -/
def wrapInt32 (x : Int) : Int := (x + 2147483648) % 4294967296 - 2147483648

/-- Two's complement wrap of an integer into the range of Go's `int64`. -/
def wrapInt64 (x : Int) : Int :=
  (x + 9223372036854775808) % 18446744073709551616 - 9223372036854775808

/-- The integer is a value of Go's `int32`. -/
def isInt32 (x : Int) : Prop := -2147483648 ≤ x ∧ x < 2147483648

/-- The integer is a value of Go's `int64`. -/
def isInt64 (x : Int) : Prop := -9223372036854775808 ≤ x ∧ x < 9223372036854775808

instance (x : Int) : Decidable (isInt32 x) := by unfold isInt32; infer_instance

instance (x : Int) : Decidable (isInt64 x) := by unfold isInt64; infer_instance

/-! ## The parts of Go's `time` package that `item.go` uses -/

/-- A `time.Duration`: a signed count of nanoseconds (an `int64` in Go). -/
abbrev Duration := Int

/-- The constant `time.Second`. -/
def Second : Duration := 1000000000

/-- The constant `time.Minute`. -/
def Minute : Duration := 60 * Second

/-- A `time.Time`, as the instant it denotes: whole seconds since the Unix
epoch and the nanoseconds within that second (`0 ≤ nsec < 10^9`). -/
structure Time where
  sec : Int
  nsec : Int
  deriving DecidableEq, Repr

/-- The nanosecond field of the instant is within its second. -/
def Time.wf (t : Time) : Prop := 0 ≤ t.nsec ∧ t.nsec < 1000000000

instance (t : Time) : Decidable t.wf := by unfold Time.wf; infer_instance

/-- The method `Time.Unix()`: the whole seconds since the Unix epoch. -/
def Time.Unix (t : Time) : Int := t.sec

/-- The function `time.Unix(sec, nsec)`: the instant `sec` seconds and `nsec`
nanoseconds after the epoch; an `nsec` outside `[0, 10^9)` is carried into
the seconds. -/
def unixTime (sec nsec : Int) : Time :=
  if nsec < 0 ∨ 1000000000 ≤ nsec then
    let n := nsec.tdiv 1000000000
    let sec1 := sec + n
    let nsec1 := nsec - n * 1000000000
    if nsec1 < 0 then ⟨sec1 - 1, nsec1 + 1000000000⟩ else ⟨sec1, nsec1⟩
  else ⟨sec, nsec⟩

/-- The zero value `time.Time{}`: January 1 of year 1, 00:00:00 UTC, which is
62135596800 seconds before the Unix epoch. -/
def zeroTime : Time := ⟨-62135596800, 0⟩

/-- The method `Time.Add(d)`: Go splits `d` into whole seconds and a remainder
by truncating division, adds the remainder to the nanoseconds and carries into
the seconds. The seconds are unbounded here: the clamp Go applies when its
own count of seconds would overflow an `int64` is out of reach of a wall
clock plus a `Duration`. -/
def Time.Add (t : Time) (d : Duration) : Time :=
  let dsec := d.tdiv 1000000000
  let nsec := t.nsec + d.tmod 1000000000
  if 1000000000 ≤ nsec then ⟨t.sec + (dsec + 1), nsec - 1000000000⟩
  else if nsec < 0 then ⟨t.sec + (dsec - 1), nsec + 1000000000⟩
  else ⟨t.sec + dsec, nsec⟩

/-- The method `Time.Before(u)`: the instant is strictly earlier than `u`,
comparing seconds first and nanoseconds next. -/
def Time.Before (t u : Time) : Bool :=
  decide (t.sec < u.sec ∨ (t.sec = u.sec ∧ t.nsec < u.nsec))

/-- The method `Time.Equal(u)`: the two denote the same instant. -/
def Time.Equal (t u : Time) : Bool :=
  decide (t.sec = u.sec ∧ t.nsec = u.nsec)

/-! ## Data model -/

/-- The lifecycle state `ItemState` of an item. -/
inductive ItemState where
  | ItemStateNormal
  | ItemStateExpired
  | ItemStateUpdating
  deriving DecidableEq, Repr

open ItemState

/-- A Go `interface{}` value as `newItem` can tell values apart: the nil
interface, a value whose dynamic type has no method `Size() int64`, and a
value whose dynamic type has one, with the number that method returns. The
`payload` stands for the data of the value. -/
inductive Value where
  | nil
  | plain (payload : Nat)
  | sized (payload : Nat) (size : Int)
  deriving DecidableEq, Repr

/-- The type assertion `value.(Sized)` followed by the call `Size()`: `none`
when the assertion fails (`ok == false`), the reported size otherwise. -/
def Value.asSized : Value → Option Int
  | Value.nil => none
  | Value.plain _ => none
  | Value.sized _ n => some n

/-- A `chan bool` as the item holds it: the nil channel (the zero value) or an
allocated, unbuffered channel. -/
inductive Chan where
  | nilChan
  | made
  deriving DecidableEq, Repr

/-- The struct `Item`. The pointer `element` is `none` when nil. -/
structure Item where
  key : String
  group : String
  promotions : Int
  refCount : Int
  expires : Int
  size : Int
  value : Value
  element : Option Nat
  state : ItemState
  done : Chan
  deriving DecidableEq, Repr

/-- The struct `nilItem`, which has no field. -/
structure nilItem where
  deriving DecidableEq, Repr

/-- The variable `NilTracked`, the one shared `nilItem`. -/
def NilTracked : nilItem := {}

/-! ## Operations of `Item` -/

/-- The constructor `newItem(key, value, expires)`. The fields the composite
literal does not name (`group`, `refCount`, `element`) take their zero value. -/
def newItem (key : String) (value : Value) (expires : Int) : Item :=
  let size : Int :=
    match value.asSized with
    | some n => n
    | none => 1
  { key := key
    group := ""
    promotions := 0
    refCount := 0
    expires := expires
    size := size
    value := value
    element := none
    state := ItemStateNormal
    done := Chan.made }

/-- The method `shouldPromote(getsPerPromote)`: bump the counter, report whether
it now equals the threshold. -/
def Item.shouldPromote (i : Item) (getsPerPromote : Int) : Bool × Item :=
  let i1 := { i with promotions := wrapInt32 (i.promotions + 1) }
  (decide (i1.promotions = getsPerPromote), i1)

/-- The method `Value()`. -/
def Item.Value (i : Item) : Value := i.value

/-- The method `track()`: `atomic.AddInt32(&i.refCount, 1)`. -/
def Item.track (i : Item) : Item :=
  { i with refCount := wrapInt32 (i.refCount + 1) }

/-- The method `Release()`: `atomic.AddInt32(&i.refCount, -1)`. -/
def Item.Release (i : Item) : Item :=
  { i with refCount := wrapInt32 (i.refCount + -1) }

/-- The method `Expired()`, with `now` the result of its `time.Now()`. -/
def Item.Expired (i : Item) (now : Time) : Bool :=
  decide (i.expires < now.Unix)

/-- The method `TTL()`, with `now` the result of its `time.Now()`: an `int64`
subtraction, a conversion to `Duration`, and an `int64` multiplication. -/
def Item.TTL (i : Item) (now : Time) : Duration :=
  wrapInt64 (Second * wrapInt64 (i.expires - now.Unix))

/-- The method `Expires()`. -/
def Item.Expires (i : Item) : Time := unixTime i.expires 0

/-- The method `Extend(duration)`, with `now` the result of its `time.Now()`. -/
def Item.Extend (i : Item) (now : Time) (duration : Duration) : Item :=
  { i with expires := (now.Add duration).Unix }

/-- The method `SetStatus(state)`. -/
def Item.SetStatus (i : Item) (state : ItemState) : Item :=
  { i with state := state }

/-! ## Operations of `nilItem`

Each takes the clock like the `TrackedItem` method it implements, and none
reads it. -/

/-- The method `Value()` of `nilItem`: the nil interface. -/
def nilItem.Value (_n : nilItem) : Value := Value.nil

/-- The method `Release()` of `nilItem`: an empty body. -/
def nilItem.Release (n : nilItem) : nilItem := n

/-- The method `Expired()` of `nilItem`. -/
def nilItem.Expired (_i : nilItem) (_now : Time) : Bool := true

/-- The method `TTL()` of `nilItem`. -/
def nilItem.TTL (_i : nilItem) (_now : Time) : Duration := Minute

/-- The method `Expires()` of `nilItem`. -/
def nilItem.Expires (_i : nilItem) : Time := zeroTime

/-- The method `Extend(duration)` of `nilItem`: an empty body. -/
def nilItem.Extend (i : nilItem) (_now : Time) (_duration : Duration) : nilItem := i

/-- The method `SetStatus(state)` of `nilItem`: an empty body. -/
def nilItem.SetStatus (i : nilItem) (_state : ItemState) : nilItem := i

/-! ## Sequences of calls -/

/-- A call of one of the methods of `Item` that write a field, with its
arguments and, where the method reads the clock, the instant it reads. -/
inductive Call where
  | track
  | Release
  | Extend (now : Time) (duration : Duration)
  | SetStatus (state : ItemState)
  | shouldPromote (getsPerPromote : Int)
  deriving DecidableEq, Repr

/-- The item after one call. -/
def Item.exec (i : Item) : Call → Item
  | Call.track => i.track
  | Call.Release => i.Release
  | Call.Extend now d => i.Extend now d
  | Call.SetStatus s => i.SetStatus s
  | Call.shouldPromote t => (i.shouldPromote t).2

/-- The item after a sequence of calls, made in order. -/
def Item.run (i : Item) (calls : List Call) : Item := calls.foldl Item.exec i

/-- The item after `n` successive calls `shouldPromote(getsPerPromote)`. -/
def Item.afterPromotes (i : Item) (getsPerPromote : Int) : Nat → Item
  | 0 => i
  | n + 1 => ((i.afterPromotes getsPerPromote n).shouldPromote getsPerPromote).2

/-- What call number `n + 1` returns in a run of successive calls
`shouldPromote(getsPerPromote)` on the item. -/
def Item.promoteResult (i : Item) (getsPerPromote : Int) (n : Nat) : Bool :=
  ((i.afterPromotes getsPerPromote n).shouldPromote getsPerPromote).1

/-- A call of one of the methods of `nilItem` that return nothing. -/
inductive NilCall where
  | Release
  | Extend (now : Time) (duration : Duration)
  | SetStatus (state : ItemState)
  deriving DecidableEq, Repr

/-- The sentinel after one call. -/
def nilItem.exec (n : nilItem) : NilCall → nilItem
  | NilCall.Release => n.Release
  | NilCall.Extend now d => n.Extend now d
  | NilCall.SetStatus s => n.SetStatus s

/-- The sentinel after a sequence of calls, made in order. -/
def nilItem.run (n : nilItem) (calls : List NilCall) : nilItem :=
  calls.foldl nilItem.exec n

/-! ## Arithmetic of the wraps -/

theorem wrapInt32_of_isInt32 (x : Int) (h : isInt32 x) : wrapInt32 x = x := by
  unfold isInt32 at h
  unfold wrapInt32
  omega

theorem wrapInt64_of_isInt64 (x : Int) (h : isInt64 x) : wrapInt64 x = x := by
  unfold isInt64 at h
  unfold wrapInt64
  omega

theorem isInt32_wrapInt32 (x : Int) : isInt32 (wrapInt32 x) := by
  unfold isInt32 wrapInt32
  omega

theorem isInt64_wrapInt64 (x : Int) : isInt64 (wrapInt64 x) := by
  unfold isInt64 wrapInt64
  omega

/-- Wrapping an intermediate sum does not change the wrapped result. -/
theorem wrapInt32_add_wrapInt32 (x y : Int) :
    wrapInt32 (wrapInt32 x + y) = wrapInt32 (x + y) := by
  unfold wrapInt32
  omega

/-! ## Arithmetic of `Time.Add` -/

/-- Truncating division by `10^9`: quotient and remainder recompose, and the
remainder is smaller than `10^9` in absolute value. -/
theorem tdiv_tmod_billion (d : Int) :
    1000000000 * d.tdiv 1000000000 + d.tmod 1000000000 = d ∧
    -1000000000 < d.tmod 1000000000 ∧ d.tmod 1000000000 < 1000000000 := by
  have hsum := Int.tdiv_add_tmod d 1000000000
  rcases Int.le_total 0 d with h | h
  · have h1 : d.tdiv 1000000000 = d / 1000000000 := Int.tdiv_eq_ediv h (by decide)
    rw [h1] at hsum ⊢
    omega
  · have h0 : 0 ≤ -d := by omega
    have h1 : (-d).tdiv 1000000000 = (-d) / 1000000000 := Int.tdiv_eq_ediv h0 (by decide)
    rw [Int.neg_tdiv] at h1
    have h2 : d.tdiv 1000000000 = -((-d) / 1000000000) := by omega
    rw [h2] at hsum ⊢
    omega

/-- Adding a duration to an instant adds that many nanoseconds to the
nanoseconds since the epoch, and keeps the nanosecond field within its
second. -/
theorem Time.Add_spec (t : Time) (d : Duration) (ht : t.wf) :
    (t.Add d).wf ∧
    (t.Add d).sec * 1000000000 + (t.Add d).nsec = t.sec * 1000000000 + t.nsec + d := by
  obtain ⟨hsum, hlo, hhi⟩ := tdiv_tmod_billion d
  unfold Time.wf at ht ⊢
  unfold Time.Add
  simp only []
  split_ifs with h1 h2
  · constructor <;> simp only [] <;> omega
  · constructor <;> simp only [] <;> omega
  · constructor <;> simp only [] <;> omega

/-- The Unix second of an instant plus a duration is the floor of the sum of
their nanoseconds divided by `10^9`. -/
theorem Time.Add_Unix (t : Time) (d : Duration) (ht : t.wf) :
    (t.Add d).Unix = (t.sec * 1000000000 + t.nsec + d) / 1000000000 := by
  obtain ⟨hwf, hsum⟩ := Time.Add_spec t d ht
  unfold Time.wf at hwf
  unfold Time.Unix
  omega

/-! ## Runs of calls -/

theorem Item.run_append (i : Item) (xs ys : List Call) :
    i.run (xs ++ ys) = (i.run xs).run ys := by
  unfold Item.run
  exact List.foldl_append _ _ _ _

/-- After `n` calls of `track()` the count is the start plus `n`, wrapped. -/
theorem Item.refCount_run_track (n : Nat) (i : Item) (hi : isInt32 i.refCount) :
    (i.run (List.replicate n Call.track)).refCount = wrapInt32 (i.refCount + n) := by
  induction n generalizing i with
  | zero =>
    simp only [List.replicate, Item.run, List.foldl]
    rw [wrapInt32_of_isInt32]
    · simp
    · simpa using hi
  | succ n ih =>
    have hstep : i.run (List.replicate (n + 1) Call.track)
        = (i.track).run (List.replicate n Call.track) := rfl
    rw [hstep, ih i.track (isInt32_wrapInt32 _)]
    show wrapInt32 (wrapInt32 (i.refCount + 1) + (n : Int)) = _
    rw [wrapInt32_add_wrapInt32]
    congr 1
    push_cast
    omega

/-- After `n` calls of `Release()` the count is the start minus `n`, wrapped. -/
theorem Item.refCount_run_Release (n : Nat) (i : Item) (hi : isInt32 i.refCount) :
    (i.run (List.replicate n Call.Release)).refCount = wrapInt32 (i.refCount - n) := by
  induction n generalizing i with
  | zero =>
    simp only [List.replicate, Item.run, List.foldl]
    rw [wrapInt32_of_isInt32]
    · simp
    · simpa using hi
  | succ n ih =>
    have hstep : i.run (List.replicate (n + 1) Call.Release)
        = (i.Release).run (List.replicate n Call.Release) := rfl
    rw [hstep, ih i.Release (isInt32_wrapInt32 _)]
    show wrapInt32 (wrapInt32 (i.refCount + -1) - (n : Int)) = _
    rw [Int.sub_eq_add_neg, wrapInt32_add_wrapInt32]
    congr 1
    push_cast
    omega

/-- What call number `n + 1` of `shouldPromote` returns, in closed form. -/
theorem Item.promoteResult_eq (i : Item) (t : Int) (n : Nat) :
    i.promoteResult t n = decide (wrapInt32 (i.promotions + n + 1) = t) := by
  have key : ∀ m : Nat, wrapInt32 ((i.afterPromotes t m).promotions + 1)
      = wrapInt32 (i.promotions + m + 1) := by
    intro m
    induction m with
    | zero => simp [Item.afterPromotes]
    | succ m ih =>
      show wrapInt32 (wrapInt32 ((i.afterPromotes t m).promotions + 1) + 1) = _
      rw [ih, wrapInt32_add_wrapInt32]
      congr 1
      push_cast
      omega
  show decide (wrapInt32 ((i.afterPromotes t n).promotions + 1) = t) = _
  rw [key n]

/-- The counter after `n + 1` calls of `shouldPromote`, in closed form. -/
theorem Item.afterPromotes_promotions (i : Item) (t : Int) (n : Nat) :
    (i.afterPromotes t (n + 1)).promotions = wrapInt32 (i.promotions + n + 1) := by
  induction n with
  | zero => simp [Item.afterPromotes, Item.shouldPromote]
  | succ n ih =>
    show wrapInt32 ((i.afterPromotes t (n + 1)).promotions + 1) = _
    rw [ih, wrapInt32_add_wrapInt32]
    congr 1
    push_cast
    omega

/-! ## Construction -/

/-- C1. `newItem(key, value, expires)` has size 1 when the value does not
implement `Sized`, and size `N` when it does and its `Size()` returns `N`,
whatever the sign of `N`. -/
theorem newItem_size (key : String) (value : Value) (expires : Int) :
    (value.asSized = none → (newItem key value expires).size = 1) ∧
    (∀ N : Int, value.asSized = some N → (newItem key value expires).size = N) := by
  refine ⟨fun h => ?_, fun N h => ?_⟩ <;> simp [newItem, h]

theorem newItem_size_witness :
    (newItem "k" (Value.plain 7) 100).size = 1 ∧
    (newItem "k" (Value.sized 7 (-5)) 100).size = -5 ∧
    (newItem "k" (Value.sized 7 0) 100).size = 0 :=
  ⟨(newItem_size "k" (Value.plain 7) 100).1 rfl,
   (newItem_size "k" (Value.sized 7 (-5)) 100).2 (-5) rfl,
   (newItem_size "k" (Value.sized 7 0) 100).2 0 rfl⟩

/-! ## Expiration -/

/-- C2, as stated, fails: at the very second of the stored expiration the
clock is at the expiration and `Expired()` returns false. -/
theorem Expired_at_expiration_is_false :
    (newItem "k" Value.nil 100).expires ≤ (Time.mk 100 0).Unix ∧
    (newItem "k" Value.nil 100).Expired (Time.mk 100 0) = false := by
  decide

/-- C2, amended. `Expired()` returns true exactly when the clock, in Unix
seconds, is at least one second past the stored expiration; when the clock
equals the stored expiration it returns false. -/
theorem Expired_iff_past_expiration (i : Item) (now : Time) :
    (i.Expired now = true ↔ i.expires + 1 ≤ now.Unix) ∧
    (now.Unix = i.expires → i.Expired now = false) := by
  unfold Item.Expired
  constructor
  · rw [decide_eq_true_iff]
    omega
  · intro h
    rw [decide_eq_false_iff_not]
    omega

theorem Expired_iff_past_expiration_witness :
    ((newItem "k" Value.nil 100).Expired (Time.mk 101 0) = true ↔
      (newItem "k" Value.nil 100).expires + 1 ≤ (Time.mk 101 0).Unix) ∧
    (newItem "k" Value.nil 100).Expired (Time.mk 100 5) = false :=
  ⟨(Expired_iff_past_expiration (newItem "k" Value.nil 100) (Time.mk 101 0)).1,
   (Expired_iff_past_expiration (newItem "k" Value.nil 100) (Time.mk 100 5)).2 rfl⟩

/-- C3. `Expired()` returns true exactly when the stored expiration is
strictly before the clock taken in whole seconds; an item constructed to
expire an hour after the clock is not expired, one constructed to expire an
hour before it is. -/
theorem Expired_iff_expires_lt_now (i : Item) (now : Time) :
    (i.Expired now = true ↔ i.expires < now.Unix) ∧
    (∀ (key : String) (value : Value),
      (newItem key value (now.Unix + 3600)).Expired now = false) ∧
    (∀ (key : String) (value : Value),
      (newItem key value (now.Unix - 3600)).Expired now = true) := by
  refine ⟨?_, fun key value => ?_, fun key value => ?_⟩
  · simp [Item.Expired]
  · simp [Item.Expired, newItem]
  · simp [Item.Expired, newItem]

/-- C4. `TTL()` is the stored expiration minus the clock's Unix second, in
nanoseconds, whenever that number of nanoseconds is an `int64`; it is one hour
for an expiration 3600 seconds after the clock and negative for one 3600
seconds before it. -/
theorem TTL_eq_seconds_until_expiration (i : Item) (now : Time) :
    (isInt64 ((i.expires - now.Unix) * 1000000000) →
      i.TTL now = (i.expires - now.Unix) * 1000000000) ∧
    (i.expires = now.Unix + 3600 → i.TTL now = 3600 * Second) ∧
    (i.expires = now.Unix - 3600 → i.TTL now < 0) := by
  unfold Item.TTL Second
  refine ⟨fun h => ?_, fun h => ?_, fun h => ?_⟩
  · have h1 : isInt64 (i.expires - now.Unix) := by
      unfold isInt64 at h ⊢
      omega
    rw [wrapInt64_of_isInt64 _ h1, Int.mul_comm, wrapInt64_of_isInt64 _ h]
  · have h1 : i.expires - now.Unix = 3600 := by omega
    rw [h1]
    decide
  · have h1 : i.expires - now.Unix = -3600 := by omega
    rw [h1]
    decide

theorem TTL_eq_seconds_until_expiration_witness :
    (newItem "k" Value.nil 130).TTL (Time.mk 100 999999999) = 30 * 1000000000 ∧
    (newItem "k" Value.nil 3700).TTL (Time.mk 100 0) = 3600 * Second ∧
    (newItem "k" Value.nil (-3500)).TTL (Time.mk 100 0) < 0 :=
  ⟨(TTL_eq_seconds_until_expiration (newItem "k" Value.nil 130) (Time.mk 100 999999999)).1
      (by decide),
   (TTL_eq_seconds_until_expiration (newItem "k" Value.nil 3700) (Time.mk 100 0)).2.1
      (by decide),
   (TTL_eq_seconds_until_expiration (newItem "k" Value.nil (-3500)) (Time.mk 100 0)).2.2
      (by decide)⟩

/-- C5. `Extend(d)` overwrites: the stored expiration, and so `Expires()`, is
the Unix second of the clock plus `d`, whatever the expiration was before. So
`Extend(d1)` followed by `Extend(d)` at the same instant leaves the expiration
of `Extend(d)` alone, which, when `d1` is a second or more, is not the
expiration that adding both durations to the clock would give. -/
theorem Extend_overwrites_expiration (i : Item) (now : Time) (d : Duration) :
    (i.Extend now d).expires = (now.Add d).Unix ∧
    (i.Extend now d).Expires = unixTime (now.Add d).Unix 0 ∧
    (∀ prior : Int,
      ({ i with expires := prior }.Extend now d).expires = (now.Add d).Unix) ∧
    (∀ d1 : Duration, ((i.Extend now d1).Extend now d).expires = (now.Add d).Unix) ∧
    (∀ d1 : Duration, now.wf → 1000000000 ≤ d1 →
      ((i.Extend now d1).Extend now d).expires ≠ ((now.Add d1).Add d).Unix) := by
  refine ⟨rfl, rfl, fun _ => rfl, fun _ => rfl, fun d1 hnow hd1 => ?_⟩
  show (now.Add d).Unix ≠ ((now.Add d1).Add d).Unix
  obtain ⟨hwf1, hsum1⟩ := Time.Add_spec now d1 hnow
  have hd1i : (1000000000 : Int) ≤ d1 := hd1
  rw [Time.Add_Unix now d hnow, Time.Add_Unix (now.Add d1) d hwf1, hsum1]
  omega

theorem Extend_overwrites_expiration_witness :
    (Time.mk 100 5).wf ∧ (1000000000 : Int) ≤ 30 * Second ∧
    (((newItem "k" Value.nil 7).Extend (Time.mk 100 5) (30 * Second)).Extend
        (Time.mk 100 5) (10 * Second)).expires = 110 ∧
    (((newItem "k" Value.nil 7).Extend (Time.mk 100 5) (30 * Second)).Extend
        (Time.mk 100 5) (10 * Second)).expires
      ≠ (((Time.mk 100 5).Add (30 * Second)).Add (10 * Second)).Unix :=
  ⟨by decide, by decide,
   (Extend_overwrites_expiration (newItem "k" Value.nil 7) (Time.mk 100 5)
      (10 * Second)).2.2.2.1 (30 * Second),
   (Extend_overwrites_expiration (newItem "k" Value.nil 7) (Time.mk 100 5)
      (10 * Second)).2.2.2.2 (30 * Second) (by decide) (by decide)⟩

/-! ## Reference counting -/

/-- C6, as stated, fails for `N = 2^31`: the count is an `int32`, and after
`2^31` calls of `track()` on a fresh item it reads `-2^31`. -/
theorem refCount_negative_after_2pow31_tracks :
    ((newItem "k" Value.nil 0).run (List.replicate 2147483648 Call.track)).refCount
      = -2147483648 ∧
    ((newItem "k" Value.nil 0).run (List.replicate 2147483648 Call.track)).refCount < 0 := by
  rw [Item.refCount_run_track 2147483648 (newItem "k" Value.nil 0) (by decide)]
  decide

/-- C6, amended. For every `N`, `N` calls of `track()` followed by `N` calls of
`Release()` on a fresh item bring the count back to 0; and when `N < 2^31`,
the count after each call of that sequence is not negative. -/
theorem track_then_Release_returns_to_zero (key : String) (value : Value) (expires : Int)
    (N : Nat) :
    ((newItem key value expires).run
      (List.replicate N Call.track ++ List.replicate N Call.Release)).refCount = 0 ∧
    (N < 2147483648 →
      (∀ k : Nat, k ≤ N →
        0 ≤ ((newItem key value expires).run (List.replicate k Call.track)).refCount) ∧
      (∀ k : Nat, k ≤ N →
        0 ≤ ((newItem key value expires).run
          (List.replicate N Call.track ++ List.replicate k Call.Release)).refCount)) := by
  have h0 : isInt32 (newItem key value expires).refCount := by
    show isInt32 0
    decide
  have hz : (newItem key value expires).refCount = 0 := rfl
  have htr : ∀ k : Nat, ((newItem key value expires).run
      (List.replicate k Call.track)).refCount = wrapInt32 k := by
    intro k
    rw [Item.refCount_run_track k _ h0, hz, Int.zero_add]
  have hrel : ∀ k : Nat, ((newItem key value expires).run
      (List.replicate N Call.track ++ List.replicate k Call.Release)).refCount
        = wrapInt32 ((N : Int) - k) := by
    intro k
    rw [Item.run_append, Item.refCount_run_Release k _ (by rw [htr N]; exact isInt32_wrapInt32 _),
      htr N, Int.sub_eq_add_neg, wrapInt32_add_wrapInt32, ← Int.sub_eq_add_neg]
  refine ⟨?_, fun hN => ⟨fun k hk => ?_, fun k hk => ?_⟩⟩
  · rw [hrel N, Int.sub_self]
    decide
  · rw [htr k]
    unfold wrapInt32
    omega
  · rw [hrel k]
    unfold wrapInt32
    omega

theorem track_then_Release_returns_to_zero_witness :
    ((newItem "k" Value.nil 0).run
      (List.replicate 3 Call.track ++ List.replicate 3 Call.Release)).refCount = 0 ∧
    0 ≤ ((newItem "k" Value.nil 0).run (List.replicate 2 Call.track)).refCount ∧
    0 ≤ ((newItem "k" Value.nil 0).run
      (List.replicate 3 Call.track ++ List.replicate 3 Call.Release)).refCount :=
  ⟨(track_then_Release_returns_to_zero "k" Value.nil 0 3).1,
   ((track_then_Release_returns_to_zero "k" Value.nil 0 3).2 (by decide)).1 2 (by decide),
   ((track_then_Release_returns_to_zero "k" Value.nil 0 3).2 (by decide)).2 3 (by decide)⟩

/-! ## Promotion -/

/-- C7, as stated, fails at call number `2^31`: the counter is an `int32`,
after `2^31 - 1` calls of `shouldPromote(1)` on a fresh item it is `2^31 - 1`,
and the next call does not add one to it, it wraps it to `-2^31`. -/
theorem shouldPromote_wraps_counter_at_call_2pow31 :
    ((newItem "k" Value.nil 0).afterPromotes 1 2147483647).promotions = 2147483647 ∧
    ((newItem "k" Value.nil 0).afterPromotes 1 2147483648).promotions = -2147483648 ∧
    ((newItem "k" Value.nil 0).afterPromotes 1 2147483648).promotions
      ≠ ((newItem "k" Value.nil 0).afterPromotes 1 2147483647).promotions + 1 := by
  have h1 : ((newItem "k" Value.nil 0).afterPromotes 1 2147483647).promotions = 2147483647 := by
    rw [show (2147483647 : Nat) = 2147483646 + 1 from rfl, Item.afterPromotes_promotions]
    decide
  have h2 : ((newItem "k" Value.nil 0).afterPromotes 1 2147483648).promotions
      = -2147483648 := by
    rw [show (2147483648 : Nat) = 2147483647 + 1 from rfl, Item.afterPromotes_promotions]
    decide
  refine ⟨h1, h2, ?_⟩
  rw [h1, h2]
  decide

/-- C7, amended. On a fresh item and for a threshold `T ≥ 1` (an `int32`), each
of the first `2^31 - 1` calls of `shouldPromote(T)` adds exactly one to the
counter, every call returns true exactly when the new value of the counter is
`T`, the first `T - 1` calls return false and call number `T` returns true. -/
theorem shouldPromote_true_at_threshold (key : String) (value : Value) (expires : Int)
    (T : Int) (h1 : 1 ≤ T) (h2 : T < 2147483648) :
    (∀ n : Nat, (n : Int) + 1 < 2147483648 →
      ((newItem key value expires).afterPromotes T (n + 1)).promotions
        = ((newItem key value expires).afterPromotes T n).promotions + 1) ∧
    (∀ n : Nat, (newItem key value expires).promoteResult T n = true ↔
      ((newItem key value expires).afterPromotes T (n + 1)).promotions = T) ∧
    (∀ n : Nat, (n : Int) + 1 < T →
      (newItem key value expires).promoteResult T n = false) ∧
    (newItem key value expires).promoteResult T (T.toNat - 1) = true := by
  have hz : (newItem key value expires).promotions = 0 := rfl
  refine ⟨fun n hn => ?_, fun n => ?_, fun n hn => ?_, ?_⟩
  · rw [Item.afterPromotes_promotions, hz]
    cases n with
    | zero =>
      show wrapInt32 (0 + ((0 : Nat) : Int) + 1) = (0 : Int) + 1
      decide
    | succ m =>
      rw [Item.afterPromotes_promotions, hz]
      unfold wrapInt32
      push_cast at hn ⊢
      omega
  · rw [Item.promoteResult_eq, Item.afterPromotes_promotions, decide_eq_true_iff]
  · rw [Item.promoteResult_eq, hz, decide_eq_false_iff_not]
    unfold wrapInt32
    omega
  · rw [Item.promoteResult_eq, hz, decide_eq_true_iff]
    unfold wrapInt32
    omega

theorem shouldPromote_true_at_threshold_witness :
    (newItem "k" Value.nil 0).promoteResult 3 0 = false ∧
    (newItem "k" Value.nil 0).promoteResult 3 1 = false ∧
    (newItem "k" Value.nil 0).promoteResult 3 2 = true :=
  ⟨(shouldPromote_true_at_threshold "k" Value.nil 0 3 (by decide) (by decide)).2.2.1 0
      (by decide),
   (shouldPromote_true_at_threshold "k" Value.nil 0 3 (by decide) (by decide)).2.2.1 1
      (by decide),
   (shouldPromote_true_at_threshold "k" Value.nil 0 3 (by decide) (by decide)).2.2.2⟩

/-- C8, as stated, fails: the counter is an `int32` that wraps, so with
threshold 1 on a fresh item the first call returns true and, `2^32` calls
later, call number `2^32 + 1` returns true again. -/
theorem shouldPromote_true_again_after_2pow32_calls :
    (newItem "k" Value.nil 0).promoteResult 1 0 = true ∧
    (newItem "k" Value.nil 0).promoteResult 1 4294967296 = true := by
  constructor
  · decide
  · rw [Item.promoteResult_eq]
    decide

/-- C8, amended. For every threshold and every item, in a run of calls of
`shouldPromote` with no reset of the counter, after a call that returns true
each of the next `2^32 - 1` calls returns false, and the call after those
returns true again. -/
theorem shouldPromote_true_once_per_cycle (i : Item) (T : Int) (n : Nat)
    (hn : i.promoteResult T n = true) :
    (∀ m : Nat, n < m → m < n + 4294967296 → i.promoteResult T m = false) ∧
    i.promoteResult T (n + 4294967296) = true := by
  rw [Item.promoteResult_eq, decide_eq_true_iff] at hn
  constructor
  · intro m h1 h2
    rw [Item.promoteResult_eq, decide_eq_false_iff_not]
    unfold wrapInt32 at hn ⊢
    omega
  · rw [Item.promoteResult_eq, decide_eq_true_iff]
    unfold wrapInt32 at hn ⊢
    push_cast
    omega

theorem shouldPromote_true_once_per_cycle_witness :
    (newItem "k" Value.nil 0).promoteResult 2 1 = true ∧
    (newItem "k" Value.nil 0).promoteResult 2 5 = false :=
  ⟨by decide,
   (shouldPromote_true_once_per_cycle (newItem "k" Value.nil 0) 2 1 (by decide)).1 5
     (by decide) (by decide)⟩

/-! ## The sentinel -/

/-- C9. Whatever the clock and whatever calls of `Release()`, `Extend(d)` and
`SetStatus(s)` were made on it before, `NilTracked` answers nil to `Value()`,
true to `Expired()`, one minute to `TTL()` and the zero time to `Expires()`. -/
theorem NilTracked_fixed_answers (calls : List NilCall) (now : Time) :
    (NilTracked.run calls).Value = Value.nil ∧
    (NilTracked.run calls).Expired now = true ∧
    (NilTracked.run calls).TTL now = 60 * 1000000000 ∧
    (NilTracked.run calls).Expires = zeroTime ∧
    NilTracked.run calls = NilTracked := by
  refine ⟨rfl, rfl, ?_, rfl, rfl⟩
  show Minute = 60 * 1000000000
  decide

/-- C10. `newItem(key, value, e)` has no promotions, no reference, the state
Normal, the stored expiration `e`, so that `Expires()` is the instant `e`
seconds after the epoch, the key `key` and the value `value`. -/
theorem newItem_fields (key : String) (value : Value) (e : Int) :
    (newItem key value e).promotions = 0 ∧
    (newItem key value e).refCount = 0 ∧
    (newItem key value e).state = ItemState.ItemStateNormal ∧
    (newItem key value e).expires = e ∧
    (newItem key value e).Expires = unixTime e 0 ∧
    (newItem key value e).Expires = Time.mk e 0 ∧
    (newItem key value e).key = key ∧
    (newItem key value e).Value = value := by
  refine ⟨rfl, rfl, rfl, rfl, rfl, ?_, rfl, rfl⟩
  show unixTime e 0 = Time.mk e 0
  simp [unixTime]

/-! ## Release out of contract -/

/-- The count after a run of calls: the start, plus the calls of `track()`,
minus the calls of `Release()`, wrapped; no other call touches it. -/
theorem Item.refCount_run (calls : List Call) (i : Item) (hi : isInt32 i.refCount) :
    (i.run calls).refCount
      = wrapInt32 (i.refCount
          + ((calls.count Call.track : Int) - (calls.count Call.Release : Int))) := by
  induction calls generalizing i with
  | nil =>
    show i.refCount = _
    rw [wrapInt32_of_isInt32]
    · simp
    · simpa using hi
  | cons c cs ih =>
    have hstep : i.run (c :: cs) = (i.exec c).run cs := rfl
    rw [hstep]
    cases c with
    | track =>
      rw [ih (i.exec Call.track) (isInt32_wrapInt32 _)]
      show wrapInt32 (wrapInt32 (i.refCount + 1) + _) = _
      rw [wrapInt32_add_wrapInt32]
      congr 1
      simp [List.count_cons]
      omega
    | Release =>
      rw [ih (i.exec Call.Release) (isInt32_wrapInt32 _)]
      show wrapInt32 (wrapInt32 (i.refCount + -1) + _) = _
      rw [wrapInt32_add_wrapInt32]
      congr 1
      simp [List.count_cons]
      omega
    | Extend now d =>
      rw [ih (i.exec (Call.Extend now d)) hi]
      show wrapInt32 (i.refCount + _) = _
      simp [List.count_cons]
    | SetStatus st =>
      rw [ih (i.exec (Call.SetStatus st)) hi]
      show wrapInt32 (i.refCount + _) = _
      simp [List.count_cons]
    | shouldPromote t =>
      rw [ih (i.exec (Call.shouldPromote t)) hi]
      show wrapInt32 (i.refCount + _) = _
      simp [List.count_cons]

/-- C11, as stated, fails for the item whose count is the least `int32`:
`2^31` calls of `Release()` on a fresh item leave the count at `-2^31`, and
the next `Release()` does not take one off, it wraps the count to `2^31 - 1`. -/
theorem Release_wraps_at_least_int32 :
    ((newItem "k" Value.nil 0).run (List.replicate 2147483648 Call.Release)).refCount
      = -2147483648 ∧
    ((newItem "k" Value.nil 0).run
      (List.replicate 2147483648 Call.Release)).Release.refCount = 2147483647 := by
  have h := Item.refCount_run_Release 2147483648 (newItem "k" Value.nil 0) (by decide)
  constructor
  · rw [h]
    decide
  · show wrapInt32
      (((newItem "k" Value.nil 0).run (List.replicate 2147483648 Call.Release)).refCount + -1)
        = 2147483647
    rw [h]
    decide

/-- C11, amended. `Release()` always returns. On every item whose count is an
`int32` above the least one, a count of 0 included, it takes exactly one off
the count, and a `track()` after it puts exactly one back; a fresh item ends
at `-1`, and at 0 again after that `track()`. -/
theorem Release_decrements_refCount (i : Item)
    (hlo : -2147483648 < i.refCount) (hhi : i.refCount < 2147483648) :
    i.Release.refCount = i.refCount - 1 ∧
    i.Release.track.refCount = i.Release.refCount + 1 ∧
    (i.refCount = 0 → i.Release.refCount = -1) ∧
    (∀ (key : String) (value : Value) (e : Int),
      (newItem key value e).Release.refCount = -1 ∧
      (newItem key value e).Release.track.refCount = 0) := by
  have h1 : i.Release.refCount = i.refCount - 1 := by
    show wrapInt32 (i.refCount + -1) = _
    unfold wrapInt32
    omega
  have h2 : i.Release.track.refCount = i.Release.refCount + 1 := by
    show wrapInt32 (i.Release.refCount + 1) = _
    rw [h1]
    unfold wrapInt32
    omega
  refine ⟨h1, h2, fun h0 => ?_, fun key value e => ⟨?_, ?_⟩⟩
  · rw [h1, h0]
    rfl
  · show wrapInt32 (0 + -1) = -1
    decide
  · show wrapInt32 (wrapInt32 (0 + -1) + 1) = 0
    decide

theorem Release_decrements_refCount_witness :
    (newItem "k" Value.nil 0).Release.refCount = (newItem "k" Value.nil 0).refCount - 1 ∧
    (newItem "k" Value.nil 0).Release.track.refCount
      = (newItem "k" Value.nil 0).Release.refCount + 1 :=
  ⟨(Release_decrements_refCount (newItem "k" Value.nil 0) (by decide) (by decide)).1,
   (Release_decrements_refCount (newItem "k" Value.nil 0) (by decide) (by decide)).2.1⟩

/-! ## Frame -/

/-- A run of calls leaves the fields that no method writes as they were. -/
theorem Item.run_frame (calls : List Call) (i : Item) :
    (i.run calls).key = i.key ∧ (i.run calls).value = i.value ∧
    (i.run calls).size = i.size ∧ (i.run calls).group = i.group ∧
    (i.run calls).element = i.element ∧ (i.run calls).done = i.done := by
  induction calls generalizing i with
  | nil => exact ⟨rfl, rfl, rfl, rfl, rfl, rfl⟩
  | cons c cs ih =>
    have hstep : i.run (c :: cs) = (i.exec c).run cs := rfl
    rw [hstep]
    have h := ih (i.exec c)
    cases c <;> exact h

/-- C13. Each method writes its own field only: putting the old count back
after `track()` or `Release()`, the old expiration back after `Extend`, the
old state back after `SetStatus(s)` (which sets the state to `s`), or the old
counter back after `shouldPromote`, gives the item as it was. So the key, the
value and the size after any run of calls are those of the construction, and
`Value()` is the payload given to `newItem`. -/
theorem methods_write_own_field_only (i : Item) :
    { i.track with refCount := i.refCount } = i ∧
    { i.Release with refCount := i.refCount } = i ∧
    (∀ (now : Time) (d : Duration), { i.Extend now d with expires := i.expires } = i) ∧
    (∀ s : ItemState,
      (i.SetStatus s).state = s ∧ { i.SetStatus s with state := i.state } = i) ∧
    (∀ T : Int, { (i.shouldPromote T).2 with promotions := i.promotions } = i) ∧
    (∀ calls : List Call,
      (i.run calls).key = i.key ∧ (i.run calls).value = i.value ∧
      (i.run calls).size = i.size) ∧
    (∀ (key : String) (value : Value) (e : Int) (calls : List Call),
      ((newItem key value e).run calls).key = key ∧
      ((newItem key value e).run calls).Value = value ∧
      ((newItem key value e).run calls).size = (newItem key value e).size) := by
  refine ⟨rfl, rfl, fun _ _ => rfl, fun _ => ⟨rfl, rfl⟩, fun _ => rfl, fun calls => ?_,
    fun key value e calls => ?_⟩
  · obtain ⟨hk, hv, hs, _⟩ := Item.run_frame calls i
    exact ⟨hk, hv, hs⟩
  · obtain ⟨hk, hv, hs, _⟩ := Item.run_frame calls (newItem key value e)
    exact ⟨hk, hv, hs⟩

/-! ## Reference counting in contract -/

/-- C14. On a fresh item, for every sequence of calls in which each prefix has
at least as many calls of `track()` as of `Release()` and fewer than `2^31`
more, the count after each call is the number of calls of `track()` minus the
number of calls of `Release()` made so far, and is not below zero. (Calls of
the other methods may be interleaved: they do not touch the count.) -/
theorem refCount_is_tracks_minus_Releases (key : String) (value : Value) (e : Int)
    (calls : List Call)
    (h : ∀ k : Nat, k ≤ calls.length →
      (calls.take k).count Call.Release ≤ (calls.take k).count Call.track ∧
      (calls.take k).count Call.track < (calls.take k).count Call.Release + 2147483648) :
    ∀ k : Nat, k ≤ calls.length →
      ((newItem key value e).run (calls.take k)).refCount
        = ((calls.take k).count Call.track : Int) - ((calls.take k).count Call.Release : Int) ∧
      0 ≤ ((newItem key value e).run (calls.take k)).refCount := by
  intro k hk
  obtain ⟨hle, hlt⟩ := h k hk
  have h0 : isInt32 (newItem key value e).refCount := by
    show isInt32 0
    decide
  have hz : (newItem key value e).refCount = 0 := rfl
  rw [Item.refCount_run (calls.take k) _ h0, hz]
  unfold wrapInt32
  constructor <;> omega

theorem refCount_is_tracks_minus_Releases_witness :
    ((newItem "k" Value.nil 0).run
      ([Call.track, Call.track, Call.Release, Call.track, Call.Release, Call.Release].take 4)).refCount
      = (([Call.track, Call.track, Call.Release, Call.track, Call.Release, Call.Release].take 4).count
          Call.track : Int)
        - (([Call.track, Call.track, Call.Release, Call.track, Call.Release,
            Call.Release].take 4).count Call.Release : Int) ∧
    0 ≤ ((newItem "k" Value.nil 0).run
      ([Call.track, Call.track, Call.Release, Call.track, Call.Release,
        Call.Release].take 4)).refCount :=
  refCount_is_tracks_minus_Releases "k" Value.nil 0
    [Call.track, Call.track, Call.Release, Call.track, Call.Release, Call.Release]
    (by decide) 4 (by decide)

/-! ## Expiration and time to live together -/

/-- When the seconds left, in nanoseconds, are an `int64`, `TTL()` is that
number: neither the subtraction nor the multiplication wraps. -/
theorem Item.TTL_of_isInt64 (i : Item) (now : Time)
    (h : isInt64 ((i.expires - now.Unix) * 1000000000)) :
    i.TTL now = (i.expires - now.Unix) * 1000000000 := by
  unfold Item.TTL Second
  have h1 : isInt64 (i.expires - now.Unix) := by
    unfold isInt64 at h ⊢
    omega
  rw [wrapInt64_of_isInt64 _ h1, Int.mul_comm, wrapInt64_of_isInt64 _ h]

/-- The instant `Expires()` returns has the stored second and no nanosecond. -/
theorem Item.Expires_eq (i : Item) : i.Expires = Time.mk i.expires 0 := by
  unfold Item.Expires
  simp [unixTime]

/-- C15, as stated, fails: with the clock at second 1700000000 and a stored
expiration 9223372037 seconds later (an `int64`), the item is not expired and
`TTL()`, whose multiplication by `10^9` wraps, is negative. -/
theorem TTL_negative_when_not_Expired :
    isInt64 (newItem "k" Value.nil 10923372037).expires ∧
    (newItem "k" Value.nil 10923372037).Expired (Time.mk 1700000000 0) = false ∧
    (newItem "k" Value.nil 10923372037).TTL (Time.mk 1700000000 0)
      = -9223372036709551616 := by
  decide

/-- C15, amended. For every item and every clock for which the seconds left,
in nanoseconds, are an `int64` (an expiration within about 292 years of the
clock), `Expired()` is true exactly when `TTL()` is negative. -/
theorem Expired_iff_TTL_negative (i : Item) (now : Time)
    (h : isInt64 ((i.expires - now.Unix) * 1000000000)) :
    i.Expired now = true ↔ i.TTL now < 0 := by
  rw [Item.TTL_of_isInt64 i now h]
  unfold Item.Expired
  rw [decide_eq_true_iff]
  change i.expires < now.Unix ↔ (i.expires - now.Unix) * 1000000000 < (0 : Int)
  omega

theorem Expired_iff_TTL_negative_witness :
    ((newItem "k" Value.nil 40).Expired (Time.mk 100 7) = true ↔
      (newItem "k" Value.nil 40).TTL (Time.mk 100 7) < 0) ∧
    (newItem "k" Value.nil 40).TTL (Time.mk 100 7) = -60000000000 :=
  ⟨Expired_iff_TTL_negative (newItem "k" Value.nil 40) (Time.mk 100 7) (by decide),
   by decide⟩

/-- C16, as stated, fails: extending by the largest `Duration`, `2^63 - 1`
nanoseconds, at an instant late in its second stores an expiration 9223372037
seconds after the clock, for which `TTL()` at that instant wraps to a negative
number. -/
theorem TTL_negative_after_Extend_by_largest_Duration :
    (Time.mk 1700000000 999999999).wf ∧
    isInt64 9223372036854775807 ∧ (0 : Int) ≤ 9223372036854775807 ∧
    ((newItem "k" Value.nil 0).Extend (Time.mk 1700000000 999999999)
        9223372036854775807).expires = 10923372037 ∧
    ((newItem "k" Value.nil 0).Extend (Time.mk 1700000000 999999999)
        9223372036854775807).TTL (Time.mk 1700000000 999999999) = -9223372036709551616 := by
  decide

/-- The arithmetic behind `Extend` followed by `Expired` and `TTL` at the same
instant: `s` and `n` are the seconds and nanoseconds of the instant plus `d`. -/
theorem Extend_arith (tsec tnsec d s n : Int)
    (hsum : s * 1000000000 + n = tsec * 1000000000 + tnsec + d)
    (hn : 0 ≤ n ∧ n < 1000000000) (ht : 0 ≤ tnsec ∧ tnsec < 1000000000) :
    (0 ≤ d → ¬ s < tsec) ∧
    (0 ≤ d → tnsec + d < 9223372037000000000 →
      0 ≤ wrapInt64 (1000000000 * wrapInt64 (s - tsec))) ∧
    (d ≤ -1000000000 → s < tsec) := by
  refine ⟨fun h0 => by omega, fun h0 h1 => ?_, fun h0 => by omega⟩
  have hq0 : 0 ≤ s - tsec := by omega
  have hq1 : s - tsec ≤ 9223372036 := by omega
  rw [wrapInt64_of_isInt64 (s - tsec) (by unfold isInt64; omega),
    wrapInt64_of_isInt64 (1000000000 * (s - tsec)) (by unfold isInt64; omega)]
  omega

/-- C16, amended. For every item and every instant `t`, after `Extend(d)` at
`t`: when `d ≥ 0`, `Expired()` at `t` is false, and `TTL()` at `t` is not
negative provided the nanoseconds of `t` plus `d` stay below
`9223372037 * 10^9` (every `d` up to `2^63 - 10^9` does); when `d` is at most
minus one second, `Expired()` at `t` is true. -/
theorem Extend_nonneg_makes_live (i : Item) (t : Time) (ht : t.wf) (d : Duration) :
    (0 ≤ d → (i.Extend t d).Expired t = false) ∧
    (0 ≤ d → t.nsec + d < 9223372037000000000 → 0 ≤ (i.Extend t d).TTL t) ∧
    (0 ≤ d → d ≤ 9223372035854775808 → 0 ≤ (i.Extend t d).TTL t) ∧
    (d ≤ -1000000000 → (i.Extend t d).Expired t = true) := by
  obtain ⟨hwf, hsum⟩ := Time.Add_spec t d ht
  obtain ⟨hexp, httl, hneg⟩ :=
    Extend_arith t.sec t.nsec d (t.Add d).sec (t.Add d).nsec hsum hwf ht
  have hbound : ∀ x : Int, x ≤ 9223372035854775808 → t.nsec < 1000000000 →
      t.nsec + x < 9223372037000000000 := by
    intro x hx hlt
    omega
  refine ⟨fun h0 => ?_, fun h0 h1 => httl h0 h1,
    fun h0 h1 => httl h0 (hbound d h1 ht.2), fun h0 => ?_⟩
  · show decide ((t.Add d).sec < t.sec) = false
    rw [decide_eq_false_iff_not]
    exact hexp h0
  · show decide ((t.Add d).sec < t.sec) = true
    rw [decide_eq_true_iff]
    exact hneg h0

theorem Extend_nonneg_makes_live_witness :
    (Time.mk 100 999999999).wf ∧
    ((newItem "k" Value.nil 7).Extend (Time.mk 100 999999999) 1).Expired
        (Time.mk 100 999999999) = false ∧
    0 ≤ ((newItem "k" Value.nil 7).Extend (Time.mk 100 999999999) 1).TTL
        (Time.mk 100 999999999) ∧
    ((newItem "k" Value.nil 7).Extend (Time.mk 100 999999999) (-1000000000)).Expired
        (Time.mk 100 999999999) = true :=
  ⟨by decide,
   (Extend_nonneg_makes_live (newItem "k" Value.nil 7) (Time.mk 100 999999999) (by decide)
      1).1 (by decide),
   (Extend_nonneg_makes_live (newItem "k" Value.nil 7) (Time.mk 100 999999999) (by decide)
      1).2.1 (by decide) (by decide),
   (Extend_nonneg_makes_live (newItem "k" Value.nil 7) (Time.mk 100 999999999) (by decide)
      (-1000000000)).2.2.2 (by decide)⟩

/-- C17. If `Expired()` returns true at an instant, the instant `Expires()`
returns is strictly before it; and `Expired()` is false at every instant that
is before or equal to the one `Expires()` returns. -/
theorem Expired_never_premature (i : Item) (t : Time) :
    (i.Expired t = true → i.Expires.Before t = true) ∧
    (t.Before i.Expires = true ∨ t.Equal i.Expires = true → i.Expired t = false) := by
  rw [Item.Expires_eq]
  unfold Item.Expired Time.Before Time.Equal Time.Unix
  constructor
  · intro h
    rw [decide_eq_true_iff] at h ⊢
    exact Or.inl h
  · intro h
    rw [decide_eq_true_iff, decide_eq_true_iff] at h
    rw [decide_eq_false_iff_not]
    simp only [] at h
    omega

theorem Expired_never_premature_witness :
    (newItem "k" Value.nil 100).Expires.Before (Time.mk 101 0) = true ∧
    (newItem "k" Value.nil 100).Expired (Time.mk 100 0) = false ∧
    (newItem "k" Value.nil 100).Expired (Time.mk 99 999999999) = false :=
  ⟨(Expired_never_premature (newItem "k" Value.nil 100) (Time.mk 101 0)).1 (by decide),
   (Expired_never_premature (newItem "k" Value.nil 100) (Time.mk 100 0)).2
      (Or.inr (by decide)),
   (Expired_never_premature (newItem "k" Value.nil 100) (Time.mk 99 999999999)).2
      (Or.inl (by decide))⟩

end ccache
